import Mathlib

/-
Verification of the client-side metadata cache and leader-selection core
(src/kudu/client/meta_cache.cc) as a shallow embedding in Lean.

Partition keys are opaque byte strings compared lexicographically
(std::string operator<); we model them as lists of naturals.  The ordered
std::map keyed by lower-bound partition key is modelled as an association
list together with explicit floor-lookup and range-erase operations that
mirror the iterator-range erases performed by the C++ code.

RemoteTabletServer objects are interned by UUID in a registry and are
referenced by pointer throughout the C++ code; since the registry never
removes entries, pointer identity coincides with UUID identity, and we
model a tablet-server pointer as its UUID string.
-/

/-- Partition keys: opaque byte strings, ordered lexicographically. -/
abbrev Key := List Nat

/-- Lexicographic strict order on byte strings, mirroring std::string operator<. -/
def keyLtB : Key → Key → Bool
  | _, [] => false
  | [], _ :: _ => true
  | a :: as, b :: bs => if a < b then true else if b < a then false else keyLtB as bs

/-- Non-strict lexicographic order, x <= y iff not (y < x). -/
def keyLeB (x y : Key) : Bool := !(keyLtB y x)

/-! ## Status values and protobuf-shaped inputs -/

/-- Status values surfaced by the meta-cache code paths (kudu::Status codes
with their message).  The checkFailed constructor models process-aborting
CHECK failures of the OrDie map helpers, which are not ordinary statuses. -/
inductive LStatus where
  | ok
  | notFound (msg : String)
  | incomplete (msg : String)
  | corruption (msg : String)
  | timedOut (msg : String)
  | serviceUnavailable (msg : String)
  | checkFailed (msg : String)
deriving DecidableEq

/-- Status::CloneAndPrepend: keeps the code, prepends to the message. -/
def cloneAndPrepend (s : LStatus) (p : String) : LStatus :=
  match s with
  | .ok => .ok
  | .notFound m => .notFound (p ++ ": " ++ m)
  | .incomplete m => .incomplete (p ++ ": " ++ m)
  | .corruption m => .corruption (p ++ ": " ++ m)
  | .timedOut m => .timedOut (p ++ ": " ++ m)
  | .serviceUnavailable m => .serviceUnavailable (p ++ ": " ++ m)
  | .checkFailed m => .checkFailed (p ++ ": " ++ m)

/-- consensus::RaftPeerPB::Role values used by the replica lists. -/
inductive RaftRole where
  | leader
  | follower
  | learner
  | nonParticipant
  | unknownRole
deriving DecidableEq

/-- master::TSInfoPB: only the permanent UUID is relevant to the cache logic
modelled here (RPC addresses and locations are consumed by proxy setup,
which is out of scope of the verified claims). -/
structure TSInfoPB where
  permanentUuid : String
deriving DecidableEq

/-- One element of TabletLocationsPB::deprecated_replicas (inline TSInfoPB). -/
structure DeprecatedReplicaPB where
  tsInfo : TSInfoPB
  role : RaftRole
deriving DecidableEq

/-- One element of TabletLocationsPB::interned_replicas
(an index into the top-level ts_infos dictionary plus a role). -/
structure InternedReplicaPB where
  tsInfoIdx : Nat
  role : RaftRole
deriving DecidableEq

/-- master::TabletLocationsPB: a tablet id, its immutable partition bounds,
and its replicas in either the deprecated or the interned form. -/
structure TabletLocationsPB where
  tabletId : String
  partitionStart : Key
  partitionEnd : Key
  deprecatedReplicas : List DeprecatedReplicaPB
  internedReplicas : List InternedReplicaPB
deriving DecidableEq

/-- master::GetTableLocationsResponsePB (fields consumed by ingestion). -/
structure GetTableLocationsResponsePB where
  ttlMillis : Nat
  tabletLocations : List TabletLocationsPB
  tsInfos : List TSInfoPB
deriving DecidableEq

/-- master::GetTabletLocationsResponsePB (fields consumed by ingestion). -/
structure GetTabletLocationsResponsePB where
  tabletLocations : List TabletLocationsPB
  tsInfos : List TSInfoPB
deriving DecidableEq

/-! ## RemoteTablet -/

/-- A replica entry of a RemoteTablet: the tablet server (modelled by its
UUID, see the header comment), its role and its failed flag. -/
structure RemoteReplica where
  ts : String
  role : RaftRole
  failed : Bool
deriving DecidableEq

/-- Modelled from the spec: the RemoteTablet class declaration lives in the
meta_cache.h header, which is not part of the sources; per the spec it has an
immutable tablet_id and partition bounds, a mutable replica list and a stale
flag, initially not stale with no replicas until the first Refresh. -/
structure RemoteTablet where
  tabletId : String
  partitionStart : Key
  partitionEnd : Key
  replicas : List RemoteReplica
  stale : Bool
deriving DecidableEq

/-- Builds replicas from interned_replicas, checking every ts_info_idx
against the ts-info dictionary exactly as RemoteTablet::Refresh does. -/
def internedToReplicas (dict : List TSInfoPB) :
    List InternedReplicaPB → Except String (List RemoteReplica)
  | [] => .ok []
  | r :: rest =>
    if h : r.tsInfoIdx < dict.length then
      match internedToReplicas dict rest with
      | .ok tail =>
        .ok ({ ts := (dict.get ⟨r.tsInfoIdx, h⟩).permanentUuid,
               role := r.role, failed := false } :: tail)
      | .error e => .error e
    else
      .error ("invalid response from master: referenced tablet idx " ++
              toString r.tsInfoIdx ++ " but only " ++ toString dict.length ++ " present")

/-- RemoteTablet::Refresh.  Returns the status together with the tablet state
after the call: on the Corruption path the partially built replica list is
discarded and the tablet is returned unchanged; on success the replica list
is replaced and the stale flag cleared.  The tservers map used by FindOrDie
interns servers by UUID, so the looked-up pointer is modelled by the UUID. -/
def RemoteTablet.Refresh (t : RemoteTablet) (locs : TabletLocationsPB)
    (tsInfoDict : List TSInfoPB) : LStatus × RemoteTablet :=
  let deprecated := locs.deprecatedReplicas.map
    (fun r => { ts := r.tsInfo.permanentUuid, role := r.role, failed := false : RemoteReplica })
  match internedToReplicas tsInfoDict locs.internedReplicas with
  | .error e => (.corruption e, t)
  | .ok interned => (.ok, { t with replicas := deprecated ++ interned, stale := false })

/-- RemoteTablet::MarkStale. -/
def RemoteTablet.MarkStale (t : RemoteTablet) : RemoteTablet :=
  { t with stale := true }

/-- RemoteTablet::MarkReplicaFailed: sets failed on every replica whose
server is ts. -/
def RemoteTablet.MarkReplicaFailed (t : RemoteTablet) (ts : String) : RemoteTablet :=
  { t with replicas := t.replicas.map (fun r => if r.ts = ts then { r with failed := true } else r) }

/-- RemoteTablet::LeaderTServer: the first non-failed replica whose role is
LEADER, else null. -/
def RemoteTablet.LeaderTServer (t : RemoteTablet) : Option String :=
  (t.replicas.find? (fun r => !r.failed && r.role == RaftRole.leader)).map (·.ts)

/-- RemoteTablet::HasLeader. -/
def RemoteTablet.HasLeader (t : RemoteTablet) : Bool :=
  t.LeaderTServer.isSome

/-- RemoteTablet::GetRemoteTabletServers: the servers of all non-failed
replicas, in list order. -/
def RemoteTablet.GetRemoteTabletServers (t : RemoteTablet) : List String :=
  (t.replicas.filter (fun r => !r.failed)).map (·.ts)

/-- RemoteTablet::MarkTServerAsLeader: the replica whose server is the given
one becomes LEADER; any other replica currently LEADER becomes FOLLOWER. -/
def RemoteTablet.MarkTServerAsLeader (t : RemoteTablet) (server : String) : RemoteTablet :=
  { t with replicas := t.replicas.map (fun r =>
      if r.ts = server then { r with role := RaftRole.leader }
      else if r.role = RaftRole.leader then { r with role := RaftRole.follower }
      else r) }

/-- RemoteTablet::MarkTServerAsFollower: the named replica becomes FOLLOWER;
others untouched. -/
def RemoteTablet.MarkTServerAsFollower (t : RemoteTablet) (server : String) : RemoteTablet :=
  { t with replicas := t.replicas.map (fun r =>
      if r.ts = server then { r with role := RaftRole.follower } else r) }

/-! ## MetaCacheEntry and the per-table range map -/

/-- Modelled from the spec: the MetaCacheEntry class declaration lives in the
meta_cache.h header, which is not part of the sources.  Per the spec it is a
TTL-carrying union of a covered tablet and a non-covered range; the covered
constructor stores a reference to the shared RemoteTablet (embedded here as a
value), the non-covered constructor stores explicit lower/upper bounds.
Contains, stale and the bound accessors below follow the meta_cache.cc
definitions. -/
structure MetaCacheEntry where
  expiration : Nat
  tablet : Option RemoteTablet
  ncLower : Key
  ncUpper : Key
deriving DecidableEq

/-- A non-covered range entry [lower, upper). -/
def ncEntry (expiration : Nat) (lower upper : Key) : MetaCacheEntry :=
  { expiration := expiration, tablet := none, ncLower := lower, ncUpper := upper }

/-- A covered entry for a tablet; its bounds come from the tablet partition. -/
def coveredEntry (expiration : Nat) (t : RemoteTablet) : MetaCacheEntry :=
  { expiration := expiration, tablet := some t, ncLower := [], ncUpper := [] }

/-- MetaCacheEntry::is_non_covered_range. -/
def MetaCacheEntry.is_non_covered_range (e : MetaCacheEntry) : Bool :=
  e.tablet.isNone

/-- MetaCacheEntry::lower_bound_partition_key: partition start of the tablet
for covered entries, the explicit lower bound for non-covered ranges. -/
def MetaCacheEntry.lower_bound_partition_key (e : MetaCacheEntry) : Key :=
  match e.tablet with
  | some t => t.partitionStart
  | none => e.ncLower

/-- MetaCacheEntry::upper_bound_partition_key. -/
def MetaCacheEntry.upper_bound_partition_key (e : MetaCacheEntry) : Key :=
  match e.tablet with
  | some t => t.partitionEnd
  | none => e.ncUpper

/-- MetaCacheEntry::Contains: lower <= key and (upper empty or key < upper). -/
def MetaCacheEntry.Contains (e : MetaCacheEntry) (partitionKey : Key) : Bool :=
  keyLeB e.lower_bound_partition_key partitionKey &&
    (e.upper_bound_partition_key.isEmpty || keyLtB partitionKey e.upper_bound_partition_key)

/-- MetaCacheEntry::stale at the given instant: expired TTL, or a covered
tablet marked stale. -/
def MetaCacheEntry.staleAt (e : MetaCacheEntry) (now : Nat) : Bool :=
  e.expiration < now ||
    (!e.is_non_covered_range &&
      (match e.tablet with | some t => t.stale | none => false))

/-- Modelled from the spec: MetaCacheEntry::refresh_expiration_time (declared
in the missing header) updates the TTL of an existing entry in place.  The
tablet field is set to the freshly refreshed RemoteTablet because in the C++
code the entry shares the RemoteTablet object that Refresh just updated. -/
def MetaCacheEntry.refreshExpiration (e : MetaCacheEntry) (expiration : Nat)
    (t : RemoteTablet) : MetaCacheEntry :=
  { e with expiration := expiration, tablet := some t }

/-- The per-table ordered map (std::map keyed by lower-bound partition key),
modelled as an association list with explicit floor and range-erase helpers. -/
abbrev TabletMap := List (Key × MetaCacheEntry)

/-- FindFloorOrNull: the entry with the greatest key <= the given key.
The first binding with the maximal such key wins, so the function is
well-defined also on lists with duplicated keys. -/
def mapFindFloor (m : TabletMap) (k : Key) : Option (Key × MetaCacheEntry) :=
  m.foldl (fun acc p =>
    if keyLeB p.1 k then
      match acc with
      | none => some p
      | some q => if keyLtB q.1 p.1 then some p else acc
    else acc) none

/-- map.erase(map.begin(), map.lower_bound(b)): drop every entry with key < b. -/
def mapEraseBelow (m : TabletMap) (b : Key) : TabletMap :=
  m.filter (fun p => !(keyLtB p.1 b))

/-- map.erase(map.lower_bound(a), map.lower_bound(b)): drop entries with
a <= key < b. -/
def mapEraseRange (m : TabletMap) (a b : Key) : TabletMap :=
  m.filter (fun p => !(keyLeB a p.1 && keyLtB p.1 b))

/-- map.erase(map.lower_bound(a), map.end()): drop entries with a <= key. -/
def mapEraseFrom (m : TabletMap) (a : Key) : TabletMap :=
  m.filter (fun p => keyLtB p.1 a)

/-- InsertOrDie / EmplaceOrDie, modelled as plain insertion; the ingestion
code only inserts keys it has just erased from the map, so the OrDie check
never fires on the paths modelled here. -/
def mapInsert (m : TabletMap) (k : Key) (v : MetaCacheEntry) : TabletMap :=
  (k, v) :: m

/-- FindOrNull on the range map. -/
def mapFind (m : TabletMap) (k : Key) : Option MetaCacheEntry :=
  (m.find? (fun p => p.1 == k)).map (·.2)

/-- In-place update of the binding at an existing key (entries are updated
through references in the C++ code). -/
def mapSet (m : TabletMap) (k : Key) (v : MetaCacheEntry) : TabletMap :=
  m.map (fun p => if p.1 == k then (k, v) else p)

/-! ## MetaCache state and ingestion of master responses -/

/-- The MetaCache indexes.  The key-based range map is modelled for a single
table (tablets_by_table_and_key_ maps each table id to such a map, and every
claim concerns one table's map); the tablet-server registry and cache hold
the interned server UUIDs. -/
structure MetaCacheState where
  tsRegistry : List String
  tsCache : List String
  tabletsById : List (String × RemoteTablet)
  tabletsByKey : TabletMap
  entryByTabletId : List (String × MetaCacheEntry)
deriving DecidableEq

/-- MetaCache::UpdateTabletServerUnlocked: update the cached server if
present, fall back to the registry (adding a cache back-reference), or
register a brand-new server.  On the UUID-level model the in-place Update
of addresses is the identity. -/
def updateTabletServer (st : MetaCacheState) (pb : TSInfoPB) : MetaCacheState :=
  if pb.permanentUuid ∈ st.tsCache then st
  else if pb.permanentUuid ∈ st.tsRegistry then
    { st with tsCache := pb.permanentUuid :: st.tsCache }
  else
    { st with tsRegistry := pb.permanentUuid :: st.tsRegistry,
              tsCache := pb.permanentUuid :: st.tsCache }

/-- FindPtrOrNull on tablets_by_id / entry_by_tablet_id style maps. -/
def assocFind {α : Type} (m : List (String × α)) (k : String) : Option α :=
  (m.find? (fun p => p.1 == k)).map (·.2)

/-- In-place update of the binding at an existing key. -/
def assocSet {α : Type} (m : List (String × α)) (k : String) (v : α) : List (String × α) :=
  m.map (fun p => if p.1 == k then (k, v) else p)

/-- The initial non-covered range step of table-locations ingestion
(meta_cache.cc lines 1072-1081): if the first tablet is past the requested
partition key, erase every entry below the first lower bound and insert the
initial non-covered entry. -/
def initialNcStep (m : TabletMap) (expiration : Nat) (partitionKey firstLower : Key) :
    TabletMap :=
  if keyLtB partitionKey firstLower then
    mapInsert (mapEraseBelow m firstLower) [] (ncEntry expiration [] firstLower)
  else m

/-- The gap step of the ingestion loop (meta_cache.cc lines 1090-1101):
when last_upper_bound is below the current tablet's lower bound, erase the
entries overlapping the discovered non-covered range and insert it. -/
def gapNcStep (m : TabletMap) (expiration : Nat) (lastUpper lower : Key) : TabletMap :=
  if keyLtB lastUpper lower then
    mapInsert (mapEraseRange m lastUpper lower) lastUpper
      (ncEntry expiration lastUpper lower)
  else m

/-- The range-map update for an already-known tablet (meta_cache.cc lines
1120-1135): refresh the TTL of the existing entry at the tablet's lower
bound, or index the tablet again when the entry was dropped. -/
def knownTabletEntryStep (m : TabletMap) (expiration : Nat) (lower : Key)
    (remote' : RemoteTablet) : TabletMap :=
  match mapFind m lower with
  | some e => mapSet m lower (e.refreshExpiration expiration remote')
  | none => mapInsert m lower (coveredEntry expiration remote')

/-- The overlap erase for a newly discovered tablet (meta_cache.cc lines
1138-1141). -/
def newTabletEraseStep (m : TabletMap) (lower upper : Key) : TabletMap :=
  if upper = [] then mapEraseFrom m lower else mapEraseRange m lower upper

/-- The main ingestion loop of ProcessGetTableLocationsResponse
(meta_cache.cc lines 1085-1155), walking the response in order while
maintaining last_upper_bound.  Returns the status together with the
tablets-by-id map, the range map and the final last_upper_bound; on a
Refresh error the mutations applied so far are kept, exactly as the C++
early return leaves the cache. -/
def ingestTabletLocations (tsInfos : List TSInfoPB) (expiration : Nat) :
    List (String × RemoteTablet) → TabletMap → Key → List TabletLocationsPB →
    LStatus × List (String × RemoteTablet) × TabletMap × Key
  | byId, m, lastUpper, [] => (.ok, byId, m, lastUpper)
  | byId, m, lastUpper, tablet :: rest =>
    let lower := tablet.partitionStart
    let upper := tablet.partitionEnd
    let m1 := gapNcStep m expiration lastUpper lower
    match assocFind byId tablet.tabletId with
    | some remote =>
      match RemoteTablet.Refresh remote tablet tsInfos with
      | (.ok, remote') =>
        ingestTabletLocations tsInfos expiration
          (assocSet byId tablet.tabletId remote')
          (knownTabletEntryStep m1 expiration lower remote')
          upper rest
      | (e, _) =>
        (cloneAndPrepend e ("failed to refresh locations for tablet " ++ tablet.tabletId),
         byId, m1, lastUpper)
    | none =>
      let m2 := newTabletEraseStep m1 lower upper
      let remote0 : RemoteTablet :=
        { tabletId := tablet.tabletId, partitionStart := lower, partitionEnd := upper,
          replicas := [], stale := false }
      match RemoteTablet.Refresh remote0 tablet tsInfos with
      | (.ok, remote') =>
        ingestTabletLocations tsInfos expiration
          ((tablet.tabletId, remote') :: byId)
          (mapInsert m2 lower (coveredEntry expiration remote'))
          upper rest
      | (e, _) =>
        (cloneAndPrepend e ("failed to refresh locations for tablet " ++ tablet.tabletId),
         byId, m2, lastUpper)

/-- The trailing non-covered range step of ingestion (meta_cache.cc lines
1157-1168): on a short read with a bounded last tablet, erase everything at
or above last_upper_bound and insert the trailing non-covered entry. -/
def trailingNcStep (m : TabletMap) (expiration : Nat) (lastUpper : Key)
    (tabletCount maxReturnedLocations : Nat) : TabletMap :=
  if lastUpper ≠ [] ∧ tabletCount < maxReturnedLocations then
    mapInsert (mapEraseFrom m lastUpper) lastUpper (ncEntry expiration lastUpper [])
  else m

/-- The final floor lookup of ingestion (meta_cache.cc lines 1171-1178):
return the floor entry at the partition key, advancing across a bounded
non-covered range when the lookup is not exact.  FindFloorOrDie is a
CHECK, modelled by the checkFailed status. -/
def lookupDiscoveredEntry (m : TabletMap) (partitionKey : Key) (isExactLookup : Bool) :
    LStatus × Option MetaCacheEntry :=
  match mapFindFloor m partitionKey with
  | none => (.checkFailed "FindFloorOrDie", none)
  | some (_, e) =>
    if !isExactLookup && e.is_non_covered_range && !e.upper_bound_partition_key.isEmpty then
      match mapFindFloor m e.upper_bound_partition_key with
      | none => (.checkFailed "FindFloorOrDie", none)
      | some (_, e2) => (.ok, some e2)
    else (.ok, some e)

/-- MetaCache::ProcessGetTableLocationsResponse.  Returns the status, the
cache state after the call and the discovered cache entry.  The expiration
instant is now + resp.ttl_millis; on the empty response the whole range map
is replaced by the single unbounded non-covered entry. -/
def processGetTableLocationsResponse (st : MetaCacheState) (now : Nat)
    (partitionKey : Key) (isExactLookup : Bool) (resp : GetTableLocationsResponsePB)
    (maxReturnedLocations : Nat) : LStatus × MetaCacheState × Option MetaCacheEntry :=
  let expiration := now + resp.ttlMillis
  match resp.tabletLocations with
  | [] =>
    let m : TabletMap := [([], ncEntry expiration [] [])]
    let st' := { st with tabletsByKey := m }
    let (s, e) := lookupDiscoveredEntry m partitionKey isExactLookup
    (s, st', e)
  | first :: _ =>
    let st1 := (resp.tabletLocations.foldl
      (fun acc tablet => tablet.deprecatedReplicas.foldl
        (fun a r => updateTabletServer a r.tsInfo) acc) st)
    let st2 := resp.tsInfos.foldl updateTabletServer st1
    let m0 := initialNcStep st.tabletsByKey expiration partitionKey first.partitionStart
    match ingestTabletLocations resp.tsInfos expiration st.tabletsById m0
        first.partitionStart resp.tabletLocations with
    | (.ok, byId1, mLoop, lastUpper) =>
      let m2 := trailingNcStep mLoop expiration lastUpper
        resp.tabletLocations.length maxReturnedLocations
      let st' := { st2 with tabletsById := byId1, tabletsByKey := m2 }
      let (s, e) := lookupDiscoveredEntry m2 partitionKey isExactLookup
      (s, st', e)
    | (err, byId1, mPartial, _) =>
      (err, { st2 with tabletsById := byId1, tabletsByKey := mPartial }, none)

/-- MetaCache::ProcessGetTabletLocationsResponse (the by-id ingestion).
The empty response returns NotFound with an empty message before the write
lock is taken, leaving every index untouched. -/
def processGetTabletLocationsResponse (st : MetaCacheState) (now ttlById : Nat)
    (tabletId : String) (resp : GetTabletLocationsResponsePB) :
    LStatus × MetaCacheState × Option MetaCacheEntry :=
  let expiration := now + ttlById
  match resp.tabletLocations with
  | [] => (.notFound "", st, none)
  | tablet :: _ =>
    let st1 := resp.tsInfos.foldl updateTabletServer st
    match assocFind st1.tabletsById tabletId with
    | some remote =>
      match RemoteTablet.Refresh remote tablet resp.tsInfos with
      | (.ok, remote') =>
        let st2 := { st1 with tabletsById := assocSet st1.tabletsById tabletId remote' }
        let entryById :=
          match assocFind st2.entryByTabletId tabletId with
          | some e => assocSet st2.entryByTabletId tabletId (e.refreshExpiration expiration remote')
          | none => (tabletId, coveredEntry expiration remote') :: st2.entryByTabletId
        let st3 := { st2 with entryByTabletId := entryById }
        (.ok, st3, assocFind st3.entryByTabletId tabletId)
      | (e, _) =>
        (cloneAndPrepend e ("failed to refresh locations for tablet " ++ tabletId), st1, none)
    | none =>
      let remote0 : RemoteTablet :=
        { tabletId := tabletId, partitionStart := tablet.partitionStart,
          partitionEnd := tablet.partitionEnd, replicas := [], stale := false }
      match RemoteTablet.Refresh remote0 tablet resp.tsInfos with
      | (.ok, remote') =>
        let st2 := { st1 with
          tabletsById := (tabletId, remote') :: st1.tabletsById,
          entryByTabletId := (tabletId, coveredEntry expiration remote') :: st1.entryByTabletId }
        (.ok, st2, assocFind st2.entryByTabletId tabletId)
      | (e, _) =>
        (cloneAndPrepend e ("failed to refresh locations for tablet " ++ tabletId), st1, none)

/-! ## Fast-path lookups -/

/-- MetaCache::LookupType. -/
inductive LookupType where
  | point
  | lowerBound
deriving DecidableEq

/-- MetaCache::LookupEntryByKeyFastPath: under the read lock, the floor entry
for the key, provided it exists, is not stale and contains the key.  A table
with no range map behaves like an empty map (no floor entry). -/
def lookupEntryByKeyFastPath (st : MetaCacheState) (now : Nat) (partitionKey : Key) :
    Option MetaCacheEntry :=
  match mapFindFloor st.tabletsByKey partitionKey with
  | none => none
  | some (_, e) =>
    if e.staleAt now then none
    else if e.Contains partitionKey then some e
    else none

/-- Result of the fast-path lookup: the status returned by DoFastPathLookup
together with the final value of the in-out partition key. -/
inductive FastPathResult where
  | okResult (tablet : RemoteTablet) (partitionKey : Key)
  | notFoundResult (msg : String) (partitionKey : Key)
  | incompleteResult (partitionKey : Key)
deriving DecidableEq

/-- The advancing loop of MetaCache::DoFastPathLookup, with explicit fuel.
Each continuing iteration replaces the key by the floor entry's non-empty
upper bound; the fuel argument makes the recursion structural, and the
termination theorem below shows that the fuel spent for the full lookup
never runs out. -/
def doFastPathLookupAux (st : MetaCacheState) (now : Nat) (lookupType : LookupType) :
    Nat → Key → Option FastPathResult
  | 0, _ => none
  | fuel + 1, partitionKey =>
    match lookupEntryByKeyFastPath st now partitionKey with
    | none => some (.incompleteResult partitionKey)
    | some e =>
      match e.tablet with
      | some t =>
        if t.HasLeader then some (.okResult t partitionKey)
        else some (.incompleteResult partitionKey)
      | none =>
        if lookupType = LookupType.point || e.ncUpper.isEmpty then
          some (.notFoundResult "No tablet covering the requested range partition" partitionKey)
        else doFastPathLookupAux st now lookupType fuel e.ncUpper

/-- MetaCache::DoFastPathLookup: run the advancing loop with enough fuel for
any reachable iteration count (one more than the range-map size). -/
def doFastPathLookup (st : MetaCacheState) (now : Nat) (lookupType : LookupType)
    (partitionKey : Key) : Option FastPathResult :=
  doFastPathLookupAux st now lookupType (st.tabletsByKey.length + 1) partitionKey

/-- Outcome of MetaCache::LookupTabletByKey: either the user callback fires
directly from the fast path with the given status, or a LookupRpc is
allocated and sent down the slow path with the advanced partition key. -/
inductive LookupOutcome where
  | fastCallback (s : LStatus)
  | slowPathRpc (partitionKey : Key)
deriving DecidableEq

/-- MetaCache::LookupTabletByKey: try the fast path without allocating a
LookupRpc; only an Incomplete fast-path status constructs and sends the RPC.
The unreachable fuel-exhaustion case (see the termination theorem) is mapped
to the slow path. -/
def lookupTabletByKey (st : MetaCacheState) (now : Nat) (partitionKey : Key)
    (lookupType : LookupType) : LookupOutcome :=
  match doFastPathLookup st now lookupType partitionKey with
  | some (.okResult _ _) => .fastCallback .ok
  | some (.notFoundResult msg _) => .fastCallback (.notFound msg)
  | some (.incompleteResult k) => .slowPathRpc k
  | none => .slowPathRpc partitionKey

/-! ## Server picker -/

/-- Outcome of one MetaCacheServerPicker::PickLeader invocation: the server
handed to InitProxy/callback if one was selected, the tablet state after the
belief updates, and whether the picker fell through to a master lookup
(step 5).  The picker-local followers set is passed in explicitly; PickLeader
itself never modifies it (only LookUpTabletCb clears it). -/
structure PickLeaderResult where
  picked : Option String
  tablet : RemoteTablet
  lookupTriggered : Bool
deriving DecidableEq

/-- Steps 3-5 of PickLeader: scan the non-failed replicas in list order,
skip those in the followers set, preemptively mark the first remaining one
as leader; fall through to a lookup when none remains. -/
def pickLeaderGuess (t : RemoteTablet) (followers : List String) : PickLeaderResult :=
  match t.GetRemoteTabletServers.find? (fun ts => !(followers.contains ts)) with
  | some cand =>
    { picked := some cand, tablet := t.MarkTServerAsLeader cand, lookupTriggered := false }
  | none => { picked := none, tablet := t, lookupTriggered := true }

/-- MetaCacheServerPicker::PickLeader (meta_cache.cc lines 429-538): on a
stale tablet go straight to the lookup; otherwise take the cached leader
unless the followers set holds it, in which case demote it in the cache and
guess the next leader among the remaining replicas. -/
def pickLeader (t : RemoteTablet) (followers : List String) : PickLeaderResult :=
  if t.stale then { picked := none, tablet := t, lookupTriggered := true }
  else
    match t.LeaderTServer with
    | some leader =>
      if followers.contains leader then
        pickLeaderGuess (t.MarkTServerAsFollower leader) followers
      else { picked := some leader, tablet := t, lookupTriggered := false }
    | none => pickLeaderGuess t followers

/-! ## LookupRpc permit lifecycle -/

/-- What LookupRpc::SendRpcSlowPath does after the permit check: either the
master RPC is issued, or a delayed retry is scheduled with the given status. -/
inductive SlowPathAction where
  | delayedRetry (s : LStatus)
  | issueMasterRpc
deriving DecidableEq

/-- One LookupRpc::SendRpcSlowPath invocation at the permit level: the
has_permit_ flag before the call and the verdict the semaphore TryAcquire
would give determine the new flag, whether an acquisition was attempted, and
the action taken. -/
structure SlowPathStep where
  hasPermit : Bool
  attemptedAcquire : Bool
  action : SlowPathAction
deriving DecidableEq

/-- LookupRpc::SendRpcSlowPath (meta_cache.cc lines 872-899), permit part:
acquisition is attempted only when has_permit_ is false; on denial a delayed
retry is scheduled with the TimedOut status instead of issuing the RPC. -/
def sendRpcSlowPathPermit (hasPermit acquireGranted : Bool) : SlowPathStep :=
  if hasPermit then
    { hasPermit := true, attemptedAcquire := false, action := .issueMasterRpc }
  else if acquireGranted then
    { hasPermit := true, attemptedAcquire := true, action := .issueMasterRpc }
  else
    { hasPermit := false, attemptedAcquire := true,
      action := .delayedRetry
        (.timedOut "client has too many outstanding requests to the master") }

/-- A whole lookup lifetime at the permit level: SendRpcSlowPath may run
several times (delayed retries re-enter it); the list gives the semaphore
verdict for each invocation.  Returns the final has_permit_ flag and the
number of successful acquisitions over the run. -/
def runSlowPathCalls : Bool → List Bool → Bool × Nat
  | h, [] => (h, 0)
  | h, g :: gs =>
    let step := sendRpcSlowPathPermit h g
    let (hf, n) := runSlowPathCalls step.hasPermit gs
    (hf, (if step.attemptedAcquire && step.hasPermit then 1 else 0) + n)

/-- LookupRpc::~LookupRpc: the permit is released exactly when one is held. -/
def permitsReleasedAtDestruction (hasPermit : Bool) : Nat :=
  if hasPermit then 1 else 0

/-! ## By-id lookups -/

/-- MetaCache::LookupEntryByIdFastPath. -/
def lookupEntryByIdFastPath (st : MetaCacheState) (now : Nat) (tabletId : String) :
    Option MetaCacheEntry :=
  match assocFind st.entryByTabletId tabletId with
  | none => none
  | some e => if e.staleAt now then none else some e

/-- MetaCache::DoFastPathLookupById: Ok when the cached entry is fresh and
its tablet has a leader, Incomplete otherwise. -/
def doFastPathLookupById (st : MetaCacheState) (now : Nat) (tabletId : String) :
    LStatus × Option RemoteTablet :=
  match lookupEntryByIdFastPath st now tabletId with
  | some e =>
    match e.tablet with
    | some t => if t.HasLeader then (.ok, some t) else (.incomplete "", none)
    | none => (.incomplete "", none)
  | none => (.incomplete "", none)

/-- LookupRpcById::SendRpcCb after a transport-level success (the retry
handling of RetryLookupIfNecessary is the external RPC layer): process the
response and invoke the user callback, prepending the rpc description to any
error.  Returns the callback status and the cache state after the call. -/
def lookupRpcByIdSendRpcCb (st : MetaCacheState) (now ttlById : Nat)
    (tabletId : String) (resp : GetTabletLocationsResponsePB) :
    LStatus × MetaCacheState :=
  let r := processGetTabletLocationsResponse st now ttlById tabletId resp
  match r.1 with
  | .ok => (.ok, r.2.1)
  | e => (cloneAndPrepend e ("LookupRpcById \x7b tablet: " ++ tabletId ++ " \x7d failed"), r.2.1)

/-- The number of range-map entries whose key lies strictly above the given
key: the termination measure of the fast-path advancing loop. -/
def mapCountAbove (m : TabletMap) (k : Key) : Nat :=
  (m.filter (fun p => keyLtB k p.1)).length

/-- Well-formedness of the tablet list of a master response, as guaranteed
by the master contract (tablets are returned in order from the requested
start key): every tablet has a non-empty lower bound and only the final
tablet may be unbounded above. -/
def boundsOk : List TabletLocationsPB → Prop
  | [] => True
  | loc :: rest =>
    loc.partitionStart ≠ [] ∧ (rest = [] ∨ loc.partitionEnd ≠ []) ∧ boundsOk rest

/-! ## Order lemmas for partition keys -/

theorem keyLtB_irrefl (x : Key) : keyLtB x x = false := by
  induction x with
  | nil => rfl
  | cons a as ih => simp [keyLtB, ih]

theorem keyLtB_trans {x y z : Key} (h1 : keyLtB x y = true) (h2 : keyLtB y z = true) :
    keyLtB x z = true := by
  induction x generalizing y z with
  | nil =>
    cases y with
    | nil => simp [keyLtB] at h1
    | cons b bs =>
      cases z with
      | nil => simp [keyLtB] at h2
      | cons c cs => simp [keyLtB]
  | cons a as ih =>
    cases y with
    | nil => simp [keyLtB] at h1
    | cons b bs =>
      cases z with
      | nil => simp [keyLtB] at h2
      | cons c cs =>
        simp only [keyLtB] at h1 h2 ⊢
        rcases Nat.lt_trichotomy a b with hab | hab | hab
        · rcases Nat.lt_trichotomy b c with hbc | hbc | hbc
          · have hac : a < c := Nat.lt_trans hab hbc
            simp [hac]
          · subst hbc
            simp [hab]
          · exact absurd h2 (by simp [Nat.lt_asymm hbc, hbc])
        · subst hab
          have h1' : keyLtB as bs = true := by simpa [Nat.lt_irrefl] using h1
          rcases Nat.lt_trichotomy a c with hac | hac | hac
          · simp [hac]
          · subst hac
            have h2' : keyLtB bs cs = true := by simpa [Nat.lt_irrefl] using h2
            simp [Nat.lt_irrefl, ih h1' h2']
          · exact absurd h2 (by simp [Nat.lt_asymm hac, hac])
        · exact absurd h1 (by simp [Nat.lt_asymm hab, hab])

theorem keyLtB_connex {x y : Key} (h1 : keyLtB x y = false) (h2 : keyLtB y x = false) :
    x = y := by
  induction x generalizing y with
  | nil =>
    cases y with
    | nil => rfl
    | cons b bs => simp [keyLtB] at h1
  | cons a as ih =>
    cases y with
    | nil => simp [keyLtB] at h2
    | cons b bs =>
      simp only [keyLtB] at h1 h2
      rcases Nat.lt_trichotomy a b with hab | hab | hab
      · simp [hab] at h1
      · subst hab
        have h1' : keyLtB as bs = false := by simpa [Nat.lt_irrefl] using h1
        have h2' : keyLtB bs as = false := by simpa [Nat.lt_irrefl] using h2
        exact congrArg (a :: ·) (ih h1' h2')
      · simp [hab] at h2

theorem keyLtB_asymm {x y : Key} (h : keyLtB x y = true) : keyLtB y x = false := by
  by_contra hc
  have hc' : keyLtB y x = true := by
    cases hyx : keyLtB y x with
    | true => rfl
    | false => exact absurd hyx hc
  have := keyLtB_trans h hc'
  rw [keyLtB_irrefl] at this
  exact Bool.false_ne_true this

theorem keyLeB_of_ltB {x y : Key} (h : keyLtB x y = true) : keyLeB x y = true := by
  simp [keyLeB, keyLtB_asymm h]

theorem keyLeB_refl (x : Key) : keyLeB x x = true := by
  simp [keyLeB, keyLtB_irrefl]

theorem keyLtB_of_not_leB {x y : Key} (h : keyLeB x y = false) : keyLtB y x = true := by
  simpa [keyLeB] using h

theorem keyLeB_of_not_ltB {x y : Key} (h : keyLtB y x = false) : keyLeB x y = true := by
  simp [keyLeB, h]

theorem not_ltB_of_leB {x y : Key} (h : keyLeB x y = true) : keyLtB y x = false := by
  simpa [keyLeB] using h

theorem keyLtB_of_leB_ltB {x y z : Key} (h1 : keyLeB x y = true) (h2 : keyLtB y z = true) :
    keyLtB x z = true := by
  by_cases hxy : keyLtB x y = true
  · exact keyLtB_trans hxy h2
  · have hxy' : keyLtB x y = false := by
      cases hv : keyLtB x y with
      | true => exact absurd hv hxy
      | false => rfl
    have := keyLtB_connex hxy' (not_ltB_of_leB h1)
    subst this
    exact h2

theorem keyLtB_of_ltB_leB {x y z : Key} (h1 : keyLtB x y = true) (h2 : keyLeB y z = true) :
    keyLtB x z = true := by
  by_cases hyz : keyLtB y z = true
  · exact keyLtB_trans h1 hyz
  · have hyz' : keyLtB y z = false := by
      cases hv : keyLtB y z with
      | true => exact absurd hv hyz
      | false => rfl
    have := keyLtB_connex (not_ltB_of_leB h2) hyz'
    subst this
    exact h1

theorem keyLeB_trans {x y z : Key} (h1 : keyLeB x y = true) (h2 : keyLeB y z = true) :
    keyLeB x z = true := by
  have hyx : keyLtB y x = false := not_ltB_of_leB h1
  have hzy : keyLtB z y = false := not_ltB_of_leB h2
  cases hv : keyLtB z x with
  | false => exact keyLeB_of_not_ltB hv
  | true =>
    by_cases hyz : keyLtB y z = true
    · have hcon : keyLtB y x = true := keyLtB_trans hyz hv
      rw [hyx] at hcon
      exact absurd hcon (by simp)
    · simp only [Bool.not_eq_true] at hyz
      have heq : y = z := keyLtB_connex hyz hzy
      subst heq
      rw [hyx] at hv
      exact absurd hv (by simp)

theorem keyLtB_nil_right (x : Key) : keyLtB x [] = false := by
  cases x <;> rfl

theorem keyLeB_nil_left (x : Key) : keyLeB [] x = true := by
  simp [keyLeB, keyLtB_nil_right]

theorem keyLtB_nil_left {x : Key} (h : x ≠ []) : keyLtB [] x = true := by
  cases x with
  | nil => exact absurd rfl h
  | cons a as => rfl

theorem ne_nil_of_ltB {x y : Key} (h : keyLtB x y = true) : y ≠ [] := by
  intro hy
  subst hy
  rw [keyLtB_nil_right] at h
  exact Bool.false_ne_true h

/-! ## C7: empty table-locations response -/

/-- C7: ingesting a table-locations response with an empty tablet_locations
list clears the table's entire range map and leaves exactly the single
unbounded non-covered entry, regardless of prior contents; the returned
entry is that non-covered entry. -/
theorem c7_empty_response_resets_map (st : MetaCacheState) (now : Nat)
    (partitionKey : Key) (isExactLookup : Bool) (resp : GetTableLocationsResponsePB)
    (maxReturnedLocations : Nat) (hemp : resp.tabletLocations = []) :
    processGetTableLocationsResponse st now partitionKey isExactLookup resp
        maxReturnedLocations =
      (.ok,
       { st with tabletsByKey := [([], ncEntry (now + resp.ttlMillis) [] [])] },
       some (ncEntry (now + resp.ttlMillis) [] [])) := by
  obtain ⟨ttl, locs, tsi⟩ := resp
  simp only at hemp
  subst hemp
  simp [processGetTableLocationsResponse, lookupDiscoveredEntry, mapFindFloor,
    keyLeB_nil_left, ncEntry, MetaCacheEntry.is_non_covered_range,
    MetaCacheEntry.upper_bound_partition_key]

/-- Witness for C7 at a concrete input. -/
theorem c7_empty_response_resets_map_witness :
    processGetTableLocationsResponse
        { tsRegistry := [], tsCache := [], tabletsById := [],
          tabletsByKey := [([0], ncEntry 9 [0] [1])], entryByTabletId := [] }
        3 [0] true { ttlMillis := 5, tabletLocations := [], tsInfos := [] } 10 =
      (.ok,
       { tsRegistry := [], tsCache := [], tabletsById := [],
         tabletsByKey := [([], ncEntry 8 [] [])], entryByTabletId := [] },
       some (ncEntry 8 [] [])) :=
  c7_empty_response_resets_map
    { tsRegistry := [], tsCache := [], tabletsById := [],
      tabletsByKey := [([0], ncEntry 9 [0] [1])], entryByTabletId := [] }
    3 [0] true { ttlMillis := 5, tabletLocations := [], tsInfos := [] } 10 rfl

/-! ## C10: empty by-id response -/

/-- C10: a GetTabletLocations response with zero tablet locations makes
ProcessGetTabletLocationsResponse return NotFound with an empty message and
leave the whole cache state (all indexes) unchanged, and the LookupRpcById
completion surfaces the NotFound status to the user callback. -/
theorem c10_empty_by_id_response (st : MetaCacheState) (now ttlById : Nat)
    (tabletId : String) (resp : GetTabletLocationsResponsePB)
    (hemp : resp.tabletLocations = []) :
    processGetTabletLocationsResponse st now ttlById tabletId resp =
      (.notFound "", st, none) ∧
    lookupRpcByIdSendRpcCb st now ttlById tabletId resp =
      (.notFound ("LookupRpcById \x7b tablet: " ++ tabletId ++ " \x7d failed" ++ ": " ++ ""),
       st) := by
  obtain ⟨locs, tsi⟩ := resp
  simp only at hemp
  subst hemp
  constructor
  · rfl
  · simp [lookupRpcByIdSendRpcCb, processGetTabletLocationsResponse, cloneAndPrepend]

/-- Witness for C10 at a concrete input. -/
theorem c10_empty_by_id_response_witness :
    processGetTabletLocationsResponse
        { tsRegistry := ["a"], tsCache := ["a"], tabletsById := [],
          tabletsByKey := [], entryByTabletId := [] }
        1 2 "tid" { tabletLocations := [], tsInfos := [] } =
      (.notFound "",
       { tsRegistry := ["a"], tsCache := ["a"], tabletsById := [],
         tabletsByKey := [], entryByTabletId := [] }, none) :=
  (c10_empty_by_id_response
    { tsRegistry := ["a"], tsCache := ["a"], tabletsById := [],
      tabletsByKey := [], entryByTabletId := [] }
    1 2 "tid" { tabletLocations := [], tsInfos := [] } rfl).1

/-! ## C8: master-lookup permit lifecycle -/

theorem runSlowPathCalls_true (gs : List Bool) : runSlowPathCalls true gs = (true, 0) := by
  induction gs with
  | nil => rfl
  | cons g gs ih => simp [runSlowPathCalls, sendRpcSlowPathPermit, ih]

/-- C8: over any lookup lifetime, a permit is successfully acquired at most
once (SendRpcSlowPath only attempts acquisition while has_permit_ is false),
the destructor releases exactly as many permits as were acquired, a denied
acquisition schedules a delayed retry with the TimedOut status instead of
issuing the master RPC, and acquisition is attempted exactly when
has_permit_ is false. -/
theorem c8_permit_lifecycle (gs : List Bool) :
    (runSlowPathCalls false gs).2 ≤ 1 ∧
    permitsReleasedAtDestruction (runSlowPathCalls false gs).1 =
      (runSlowPathCalls false gs).2 ∧
    (∀ h g : Bool, (sendRpcSlowPathPermit h g).attemptedAcquire = !h) ∧
    (sendRpcSlowPathPermit false false).action =
      .delayedRetry (.timedOut "client has too many outstanding requests to the master") ∧
    (sendRpcSlowPathPermit false false).hasPermit = false := by
  refine ⟨?_, ?_, ?_, rfl, rfl⟩
  · induction gs with
    | nil => simp [runSlowPathCalls]
    | cons g gs ih =>
      cases g
      · simpa [runSlowPathCalls, sendRpcSlowPathPermit] using ih
      · simp [runSlowPathCalls, sendRpcSlowPathPermit, runSlowPathCalls_true]
  · induction gs with
    | nil => simp [runSlowPathCalls, permitsReleasedAtDestruction]
    | cons g gs ih =>
      cases g
      · simpa [runSlowPathCalls, sendRpcSlowPathPermit] using ih
      · simp [runSlowPathCalls, sendRpcSlowPathPermit, runSlowPathCalls_true,
          permitsReleasedAtDestruction]
  · intro h g
    cases h <;> cases g <;> rfl

/-! ## C5: Refresh with an out-of-range interned index -/

theorem internedToReplicas_error_of_bad (dict : List TSInfoPB)
    (l : List InternedReplicaPB) (hbad : ∃ r ∈ l, dict.length ≤ r.tsInfoIdx) :
    ∃ e, internedToReplicas dict l = .error e := by
  induction l with
  | nil =>
    obtain ⟨r, hr, _⟩ := hbad
    cases hr
  | cons a rest ih =>
    by_cases h : a.tsInfoIdx < dict.length
    · obtain ⟨r, hr, hb⟩ := hbad
      rcases List.mem_cons.mp hr with rfl | hr'
      · omega
      · obtain ⟨e, he⟩ := ih ⟨r, hr', hb⟩
        exact ⟨e, by simp [internedToReplicas, h, he]⟩
    · refine ⟨"invalid response from master: referenced tablet idx " ++
        toString a.tsInfoIdx ++ " but only " ++ toString dict.length ++ " present", ?_⟩
      simp [internedToReplicas, h]

/-- C5: when some interned replica's ts_info_idx is at or beyond the size of
the ts-info dictionary, RemoteTablet::Refresh returns a Corruption status
and leaves the tablet (replica list and stale flag) exactly as it was; the
stale flag is cleared only on the success path. -/
theorem c5_refresh_corruption (t : RemoteTablet) (locs : TabletLocationsPB)
    (dict : List TSInfoPB)
    (hbad : ∃ r ∈ locs.internedReplicas, dict.length ≤ r.tsInfoIdx) :
    (∃ msg, (RemoteTablet.Refresh t locs dict).1 = .corruption msg) ∧
    (RemoteTablet.Refresh t locs dict).2 = t ∧
    (∀ (t2 : RemoteTablet) (l2 : TabletLocationsPB) (d2 : List TSInfoPB),
      (RemoteTablet.Refresh t2 l2 d2).1 = .ok →
        (RemoteTablet.Refresh t2 l2 d2).2.stale = false) := by
  obtain ⟨e, he⟩ := internedToReplicas_error_of_bad dict locs.internedReplicas hbad
  refine ⟨⟨e, by simp [RemoteTablet.Refresh, he]⟩, by simp [RemoteTablet.Refresh, he], ?_⟩
  intro t2 l2 d2 hok
  simp only [RemoteTablet.Refresh] at hok ⊢
  cases hr : internedToReplicas d2 l2.internedReplicas with
  | error e2 => simp [hr] at hok
  | ok reps => simp [hr]

/-- Witness for C5 at a concrete input. -/
theorem c5_refresh_corruption_witness :
    (∃ r ∈ ([{ tsInfoIdx := 0, role := RaftRole.follower }] : List InternedReplicaPB),
        ([] : List TSInfoPB).length ≤ r.tsInfoIdx) ∧
    (∃ msg,
      (RemoteTablet.Refresh
        { tabletId := "t", partitionStart := [], partitionEnd := [],
          replicas := [], stale := true }
        { tabletId := "t", partitionStart := [], partitionEnd := [],
          deprecatedReplicas := [],
          internedReplicas := [{ tsInfoIdx := 0, role := RaftRole.follower }] }
        []).1 = .corruption msg) :=
  ⟨⟨{ tsInfoIdx := 0, role := RaftRole.follower }, by simp, by simp⟩,
   (c5_refresh_corruption
     { tabletId := "t", partitionStart := [], partitionEnd := [],
       replicas := [], stale := true }
     { tabletId := "t", partitionStart := [], partitionEnd := [],
       deprecatedReplicas := [],
       internedReplicas := [{ tsInfoIdx := 0, role := RaftRole.follower }] }
     []
     ⟨{ tsInfoIdx := 0, role := RaftRole.follower }, by simp, by simp⟩).1⟩

/-! ## C4: MarkTServerAsLeader (corrected) -/

/-- C4 counterexample: if the given server has no replica in the tablet,
MarkTServerAsLeader demotes the previous leader and leaves no leader at
all, so the claimed "exactly one replica has role Leader" is false. -/
theorem c4_counterexample :
    ¬ (((RemoteTablet.MarkTServerAsLeader
          { tabletId := "t", partitionStart := [], partitionEnd := [],
            replicas := [{ ts := "a", role := RaftRole.leader, failed := false }],
            stale := false }
          "b").replicas.filter (fun r => r.role == RaftRole.leader)).length = 1) := by
  decide

/-- C4 (amended): if exactly one replica of the tablet has the given server,
then after MarkTServerAsLeader exactly one replica has role Leader, namely
the one whose server is the given one, and every replica that previously had
role Leader with a different server now has role Follower. -/
theorem c4_mark_leader_amended (t : RemoteTablet) (x : String)
    (hx : (t.replicas.filter (fun r => r.ts == x)).length = 1) :
    ((t.MarkTServerAsLeader x).replicas.filter
        (fun r => r.role == RaftRole.leader)).length = 1 ∧
    (∀ r' ∈ (t.MarkTServerAsLeader x).replicas,
        r'.role = RaftRole.leader → r'.ts = x) ∧
    (∀ (i : Nat) (r : RemoteReplica), t.replicas[i]? = some r →
        r.role = RaftRole.leader → r.ts ≠ x →
        (t.MarkTServerAsLeader x).replicas[i]? =
          some { r with role := RaftRole.follower }) := by
  refine ⟨?_, ?_, ?_⟩
  · rw [RemoteTablet.MarkTServerAsLeader]
    rw [List.filter_map]
    rw [List.length_map]
    rw [List.filter_congr (p := _) (q := fun r => r.ts == x) ?_]
    · exact hx
    · intro r _
      by_cases h1 : r.ts = x
      · simp [h1]
      · by_cases h2 : r.role = RaftRole.leader <;> simp [Function.comp, h1, h2]
  · intro r' hr' hrole
    rw [RemoteTablet.MarkTServerAsLeader] at hr'
    obtain ⟨r0, hr0, rfl⟩ := List.mem_map.mp hr'
    by_cases h1 : r0.ts = x
    · simp [h1]
    · by_cases h2 : r0.role = RaftRole.leader
      · simp [h1, h2] at hrole
      · simp [h1, h2] at hrole
  · intro i r hi hrole hts
    rw [RemoteTablet.MarkTServerAsLeader]
    simp only [List.getElem?_map, hi, Option.map_some']
    simp [hts, hrole]

/-- Witness for C4 (amended) at a concrete input. -/
theorem c4_mark_leader_amended_witness :
    (((RemoteTablet.MarkTServerAsLeader
        { tabletId := "t", partitionStart := [], partitionEnd := [],
          replicas := [{ ts := "a", role := RaftRole.leader, failed := false },
                       { ts := "b", role := RaftRole.follower, failed := false }],
          stale := false }
        "b").replicas.filter (fun r => r.role == RaftRole.leader)).length = 1) :=
  (c4_mark_leader_amended
    { tabletId := "t", partitionStart := [], partitionEnd := [],
      replicas := [{ ts := "a", role := RaftRole.leader, failed := false },
                   { ts := "b", role := RaftRole.follower, failed := false }],
      stale := false }
    "b" (by decide)).1

/-! ## C2: sticky-follower rejection in PickLeader -/

theorem pickLeaderGuess_picked_not_follower (t : RemoteTablet) (followers : List String)
    (s : String) (h : (pickLeaderGuess t followers).picked = some s) :
    followers.contains s = false := by
  unfold pickLeaderGuess at h
  cases hf : t.GetRemoteTabletServers.find? (fun ts => !(followers.contains ts)) with
  | none => rw [hf] at h; simp at h
  | some cand =>
    rw [hf] at h
    simp only [Option.some.injEq] at h
    subst h
    have := List.find?_some hf
    simpa using this

theorem markFollower_roles (t : RemoteTablet) (x : String) :
    ∀ r ∈ (t.MarkTServerAsFollower x).replicas, r.ts = x → r.role = RaftRole.follower := by
  intro r hr hts
  rw [RemoteTablet.MarkTServerAsFollower] at hr
  obtain ⟨r0, _, rfl⟩ := List.mem_map.mp hr
  by_cases h : r0.ts = x
  · simp [h]
  · simp [h] at hts

theorem markLeader_follower_preserved (t : RemoteTablet) (cand x : String)
    (hne : cand ≠ x)
    (hall : ∀ r ∈ t.replicas, r.ts = x → r.role = RaftRole.follower) :
    ∀ r ∈ (t.MarkTServerAsLeader cand).replicas, r.ts = x →
      r.role = RaftRole.follower := by
  intro r hr hts
  rw [RemoteTablet.MarkTServerAsLeader] at hr
  obtain ⟨r0, hr0, rfl⟩ := List.mem_map.mp hr
  by_cases h1 : r0.ts = cand
  · have hx0 : r0.ts = x := by simpa [h1] using hts
    exact absurd (h1.symm.trans hx0) hne
  · by_cases h2 : r0.role = RaftRole.leader
    · have hx0 : r0.ts = x := by simpa [h1, h2] using hts
      exact absurd (hall r0 hr0 hx0) (by simp [h2])
    · have hx0 : r0.ts = x := by simpa [h1, h2] using hts
      simpa [h1, h2] using hall r0 hr0 hx0

theorem pickLeaderGuess_follower_roles (t : RemoteTablet) (followers : List String)
    (x : String) (hx : followers.contains x = true)
    (hall : ∀ r ∈ t.replicas, r.ts = x → r.role = RaftRole.follower) :
    ∀ r ∈ (pickLeaderGuess t followers).tablet.replicas, r.ts = x →
      r.role = RaftRole.follower := by
  unfold pickLeaderGuess
  cases hf : t.GetRemoteTabletServers.find? (fun ts => !(followers.contains ts)) with
  | none => simpa using hall
  | some cand =>
    have hcand : followers.contains cand = false := by
      simpa using List.find?_some hf
    have hne : cand ≠ x := by
      intro hc
      rw [hc, hx] at hcand
      simp at hcand
    simpa using markLeader_follower_preserved t cand x hne hall

/-- C2: with the picker-local followers set still containing x (no lookup
completion has cleared it), PickLeader never selects x: the selected server
is never in the followers set, and when x is the cached leader it is demoted
to follower in the cache and skipped. -/
theorem c2_sticky_follower (t : RemoteTablet) (followers : List String) (x : String)
    (hx : followers.contains x = true) :
    (pickLeader t followers).picked ≠ some x ∧
    (∀ s, (pickLeader t followers).picked = some s → followers.contains s = false) ∧
    (t.stale = false → t.LeaderTServer = some x →
      ∀ r ∈ (pickLeader t followers).tablet.replicas, r.ts = x →
        r.role = RaftRole.follower) := by
  have hsel : ∀ s, (pickLeader t followers).picked = some s →
      followers.contains s = false := by
    intro s hpick
    unfold pickLeader at hpick
    by_cases hst : t.stale = true
    · rw [if_pos hst] at hpick
      simp at hpick
    · rw [if_neg hst] at hpick
      cases hl : t.LeaderTServer with
      | some leader =>
        rw [hl] at hpick
        by_cases hfl : followers.contains leader = true
        · simp only [hfl, if_true] at hpick
          exact pickLeaderGuess_picked_not_follower _ _ _ hpick
        · have hfl2 : leader ∉ followers := by simpa using hfl
          simp [hfl2] at hpick
          subst hpick
          simpa using hfl
      | none =>
        rw [hl] at hpick
        exact pickLeaderGuess_picked_not_follower _ _ _ hpick
  refine ⟨?_, hsel, ?_⟩
  · intro hpx
    have := hsel x hpx
    rw [hx] at this
    simp at this
  · intro hst hl
    have hred : pickLeader t followers =
        pickLeaderGuess (t.MarkTServerAsFollower x) followers := by
      unfold pickLeader
      rw [if_neg (by simp [hst]), hl]
      simp only [hx, if_true]
    rw [hred]
    exact pickLeaderGuess_follower_roles _ _ _ hx (markFollower_roles t x)

/-- Witness for C2 at a concrete input. -/
theorem c2_sticky_follower_witness :
    (["a"].contains "a" = true) ∧
    (pickLeader
      { tabletId := "t", partitionStart := [], partitionEnd := [],
        replicas := [{ ts := "a", role := RaftRole.leader, failed := false },
                     { ts := "b", role := RaftRole.follower, failed := false }],
        stale := false }
      ["a"]).picked ≠ some "a" :=
  ⟨by decide,
   (c2_sticky_follower
     { tabletId := "t", partitionStart := [], partitionEnd := [],
       replicas := [{ ts := "a", role := RaftRole.leader, failed := false },
                    { ts := "b", role := RaftRole.follower, failed := false }],
       stale := false }
     ["a"] "a" (by decide)).1⟩

/-! ## C3: the fast path requires a non-failed leader -/

theorem doFastPathLookupAux_ok_hasLeader (st : MetaCacheState) (now : Nat)
    (lookupType : LookupType) :
    ∀ (fuel : Nat) (k : Key) (t : RemoteTablet) (k2 : Key),
      doFastPathLookupAux st now lookupType fuel k = some (.okResult t k2) →
      t.HasLeader = true := by
  intro fuel
  induction fuel with
  | zero => intro k t k2 h; simp [doFastPathLookupAux] at h
  | succ n ih =>
    intro k t k2 h
    cases he : lookupEntryByKeyFastPath st now k with
    | none => simp [doFastPathLookupAux, he] at h
    | some e =>
      cases het : e.tablet with
      | some t0 =>
        by_cases hld : t0.HasLeader = true
        · have ht : t0 = t := by
            simp [doFastPathLookupAux, he, het, hld] at h
            exact h.1
          rw [← ht]
          exact hld
        · simp [doFastPathLookupAux, he, het, hld] at h
      | none =>
        by_cases hcond : (decide (lookupType = LookupType.point) || e.ncUpper.isEmpty) = true
        · simp [doFastPathLookupAux, he, het, hcond] at h
        · simp only [doFastPathLookupAux, he, het, hcond, Bool.false_eq_true, if_false] at h
          exact ih e.ncUpper t k2 h

/-- C3: DoFastPathLookup returns Ok only with a tablet that currently has a
non-failed leader, and when the fresh covered floor entry's tablet has no
non-failed leader the fast path returns Incomplete, forcing the slow path. -/
theorem c3_fast_path_requires_leader :
    (∀ (st : MetaCacheState) (now : Nat) (lookupType : LookupType) (k : Key)
        (t : RemoteTablet) (k2 : Key),
      doFastPathLookup st now lookupType k = some (.okResult t k2) →
      t.HasLeader = true) ∧
    (∀ (st : MetaCacheState) (now : Nat) (lookupType : LookupType) (k : Key)
        (e : MetaCacheEntry) (t : RemoteTablet),
      lookupEntryByKeyFastPath st now k = some e →
      e.tablet = some t →
      t.HasLeader = false →
      doFastPathLookup st now lookupType k = some (.incompleteResult k)) := by
  constructor
  · intro st now lookupType k t k2 h
    exact doFastPathLookupAux_ok_hasLeader st now lookupType _ k t k2 h
  · intro st now lookupType k e t he het hld
    unfold doFastPathLookup
    simp [doFastPathLookupAux, he, het, hld]

/-- Witness for C3: a fresh covered entry whose tablet has only a follower
replica makes the fast path return Incomplete. -/
theorem c3_fast_path_requires_leader_witness :
    doFastPathLookup
        { tsRegistry := [], tsCache := [],
          tabletsById := [("A",
            { tabletId := "A", partitionStart := [], partitionEnd := [],
              replicas := [{ ts := "a", role := RaftRole.follower, failed := false }],
              stale := false })],
          tabletsByKey := [([], coveredEntry 10
            { tabletId := "A", partitionStart := [], partitionEnd := [],
              replicas := [{ ts := "a", role := RaftRole.follower, failed := false }],
              stale := false })],
          entryByTabletId := [] }
        5 LookupType.point [0] = some (.incompleteResult [0]) :=
  (c3_fast_path_requires_leader).2
    { tsRegistry := [], tsCache := [],
      tabletsById := [("A",
        { tabletId := "A", partitionStart := [], partitionEnd := [],
          replicas := [{ ts := "a", role := RaftRole.follower, failed := false }],
          stale := false })],
      tabletsByKey := [([], coveredEntry 10
        { tabletId := "A", partitionStart := [], partitionEnd := [],
          replicas := [{ ts := "a", role := RaftRole.follower, failed := false }],
          stale := false })],
      entryByTabletId := [] }
    5 LookupType.point [0]
    (coveredEntry 10
      { tabletId := "A", partitionStart := [], partitionEnd := [],
        replicas := [{ ts := "a", role := RaftRole.follower, failed := false }],
        stale := false })
    { tabletId := "A", partitionStart := [], partitionEnd := [],
      replicas := [{ ts := "a", role := RaftRole.follower, failed := false }],
      stale := false }
    (by decide) (by decide) (by decide)

/-! ## C9: termination of the fast-path advancing loop -/

theorem isEmpty_false_of_ne_nil {x : Key} (h : x ≠ []) : x.isEmpty = false := by
  cases x with
  | nil => exact absurd rfl h
  | cons a as => rfl

theorem mapFindFloor_go (k : Key) :
    ∀ (m : TabletMap) (acc : Option (Key × MetaCacheEntry)) (r : Key × MetaCacheEntry),
      m.foldl (fun acc p =>
        if keyLeB p.1 k then
          match acc with
          | none => some p
          | some q => if keyLtB q.1 p.1 then some p else acc
        else acc) acc = some r →
      (r ∈ m ∧ keyLeB r.1 k = true) ∨ acc = some r := by
  intro m
  induction m with
  | nil => intro acc r h; exact Or.inr h
  | cons p m' ih =>
    intro acc r h
    rw [List.foldl_cons] at h
    rcases ih _ r h with ⟨hm, hle⟩ | hacc
    · exact Or.inl ⟨List.mem_cons_of_mem _ hm, hle⟩
    · by_cases hp : keyLeB p.1 k = true
      · cases acc with
        | none =>
          rw [if_pos hp] at hacc
          have hpr : some p = some r := hacc
          have : p = r := Option.some.inj hpr
          exact Or.inl ⟨by rw [← this]; exact List.mem_cons_self _ _, by rw [← this]; exact hp⟩
        | some q =>
          rw [if_pos hp] at hacc
          have hacc' : (if keyLtB q.1 p.1 then some p else some q) = some r := hacc
          by_cases hq : keyLtB q.1 p.1 = true
          · rw [if_pos hq] at hacc'
            have : p = r := Option.some.inj hacc'
            exact Or.inl ⟨by rw [← this]; exact List.mem_cons_self _ _, by rw [← this]; exact hp⟩
          · rw [if_neg hq] at hacc'
            exact Or.inr hacc'
      · rw [if_neg hp] at hacc
        exact Or.inr hacc

theorem mapFindFloor_spec (m : TabletMap) (k : Key) (p : Key × MetaCacheEntry)
    (h : mapFindFloor m k = some p) : p ∈ m ∧ keyLeB p.1 k = true := by
  rcases mapFindFloor_go k m none p h with hgood | hbad
  · exact hgood
  · exact absurd hbad (by simp)

theorem mapFindFloor_congr (m : TabletMap) (k k2 : Key)
    (hb : ∀ p ∈ m, keyLeB p.1 k2 = keyLeB p.1 k) :
    mapFindFloor m k2 = mapFindFloor m k := by
  unfold mapFindFloor
  apply List.foldl_ext
  intro acc p hp
  rw [hb p hp]

theorem doFastPathLookupAux_fuel (st : MetaCacheState) (now : Nat) (lookupType : LookupType) :
    ∀ (fuel : Nat) (k : Key), mapCountAbove st.tabletsByKey k + 1 < fuel →
      (doFastPathLookupAux st now lookupType fuel k).isSome = true := by
  intro fuel
  induction fuel with
  | zero => intro k h; omega
  | succ n ih =>
    intro k hk
    cases he : lookupEntryByKeyFastPath st now k with
    | none => simp [doFastPathLookupAux, he]
    | some e =>
      cases het : e.tablet with
      | some t =>
        by_cases hld : t.HasLeader = true <;> simp [doFastPathLookupAux, he, het, hld]
      | none =>
        by_cases hcond : (decide (lookupType = LookupType.point) || e.ncUpper.isEmpty) = true
        · simp [doFastPathLookupAux, he, het, hcond]
        · simp only [doFastPathLookupAux, he, het, hcond, Bool.false_eq_true, if_false]
          have hup : e.ncUpper ≠ [] := by
            intro hn
            exact hcond (by simp [hn])
          obtain ⟨l, hfl, hst, hcont⟩ :
              ∃ l, mapFindFloor st.tabletsByKey k = some (l, e) ∧
                e.staleAt now = false ∧ e.Contains k = true := by
            unfold lookupEntryByKeyFastPath at he
            cases hf : mapFindFloor st.tabletsByKey k with
            | none => rw [hf] at he; simp at he
            | some q =>
              obtain ⟨ql, qe⟩ := q
              rw [hf] at he
              have he' : (if qe.staleAt now then none
                  else if qe.Contains k then some qe else none) = some e := he
              by_cases h1 : qe.staleAt now = true
              · rw [if_pos h1] at he'
                simp at he'
              · rw [if_neg h1] at he'
                by_cases h2 : qe.Contains k = true
                · rw [if_pos h2] at he'
                  have hqe : qe = e := Option.some.inj he'
                  subst hqe
                  simp only [Bool.not_eq_true] at h1
                  exact ⟨ql, rfl, h1, h2⟩
                · rw [if_neg h2] at he'
                  simp at he'
          have hcont2 : keyLeB e.ncLower k = true ∧ keyLtB k e.ncUpper = true := by
            unfold MetaCacheEntry.Contains at hcont
            rw [MetaCacheEntry.lower_bound_partition_key,
                MetaCacheEntry.upper_bound_partition_key, het] at hcont
            simp only [Bool.and_eq_true, Bool.or_eq_true] at hcont
            obtain ⟨h1, h2⟩ := hcont
            refine ⟨h1, ?_⟩
            rcases h2 with h2 | h2
            · rw [isEmpty_false_of_ne_nil hup] at h2
              exact absurd h2 (by simp)
            · exact h2
          have hkk2 : keyLtB k e.ncUpper = true := hcont2.2
          by_cases hex : ∃ p ∈ st.tabletsByKey,
              keyLtB k p.1 = true ∧ keyLtB e.ncUpper p.1 = false
          · obtain ⟨p0, hp0m, hp0a, hp0b⟩ := hex
            have hdec : mapCountAbove st.tabletsByKey e.ncUpper <
                mapCountAbove st.tabletsByKey k := by
              unfold mapCountAbove
              have h1 : (st.tabletsByKey.filter (fun p => keyLtB k p.1)).filter
                    (fun p => keyLtB e.ncUpper p.1) =
                  st.tabletsByKey.filter
                    (fun a => keyLtB e.ncUpper a.1 && keyLtB k a.1) :=
                List.filter_filter _ _
              have h2 : st.tabletsByKey.filter
                    (fun a => keyLtB e.ncUpper a.1 && keyLtB k a.1) =
                  st.tabletsByKey.filter (fun p => keyLtB e.ncUpper p.1) := by
                refine List.filter_congr ?_
                intro q _
                cases hv : keyLtB e.ncUpper q.1 with
                | true => simp [hv, keyLtB_trans hkk2 hv]
                | false => simp [hv]
              have h3 : st.tabletsByKey.filter (fun p => keyLtB e.ncUpper p.1) =
                  (st.tabletsByKey.filter (fun p => keyLtB k p.1)).filter
                    (fun p => keyLtB e.ncUpper p.1) := by
                rw [h1, h2]
              rw [h3]
              refine List.length_filter_lt_length_iff_exists.mpr ?_
              exact ⟨p0, List.mem_filter.mpr ⟨hp0m, hp0a⟩, by simp [hp0b]⟩
            exact ih e.ncUpper (by omega)
          · have hmono : ∀ p ∈ st.tabletsByKey, keyLtB k p.1 = true →
                keyLtB e.ncUpper p.1 = true := by
              intro p hp hkp
              by_contra hc
              simp only [Bool.not_eq_true] at hc
              exact hex ⟨p, hp, hkp, hc⟩
            have hcongr : ∀ p ∈ st.tabletsByKey,
                keyLeB p.1 e.ncUpper = keyLeB p.1 k := by
              intro p hp
              cases hv : keyLeB p.1 k with
              | true => exact keyLeB_trans hv (keyLeB_of_ltB hkk2)
              | false =>
                have h1 : keyLtB k p.1 = true := keyLtB_of_not_leB hv
                have h2 : keyLtB e.ncUpper p.1 = true := hmono p hp h1
                simp [keyLeB, h2]
            have hff : mapFindFloor st.tabletsByKey e.ncUpper = some (l, e) := by
              rw [mapFindFloor_congr _ _ _ hcongr, hfl]
            have hcontUp : e.Contains e.ncUpper = false := by
              unfold MetaCacheEntry.Contains
              rw [MetaCacheEntry.upper_bound_partition_key, het]
              simp [isEmpty_false_of_ne_nil hup, keyLtB_irrefl]
            have hlook2 : lookupEntryByKeyFastPath st now e.ncUpper = none := by
              unfold lookupEntryByKeyFastPath
              rw [hff]
              have hred : (if e.staleAt now then none
                  else if e.Contains e.ncUpper then some e else none) =
                  (none : Option MetaCacheEntry) := by
                rw [if_neg (by simp [hst]), if_neg (by simp [hcontUp])]
              exact hred
            obtain ⟨n', rfl⟩ : ∃ n', n = n' + 1 := ⟨n - 1, by omega⟩
            simp [doFastPathLookupAux, hlook2]

/-- C9: DoFastPathLookup terminates for every table, starting key and cache
state: its advancing loop always reaches one of the Ok, NotFound or
Incomplete results within the allotted fuel, because every continuing
iteration strictly increases the key (the floor entry contains it and has a
non-empty upper bound) and strictly decreases the number of map entries
above the key. -/
theorem c9_fast_path_terminates (st : MetaCacheState) (now : Nat)
    (lookupType : LookupType) (k : Key) :
    ∃ r, doFastPathLookup st now lookupType k = some r := by
  unfold doFastPathLookup
  cases hf : mapFindFloor st.tabletsByKey k with
  | none =>
    have hlook : lookupEntryByKeyFastPath st now k = none := by
      unfold lookupEntryByKeyFastPath
      rw [hf]
    exact ⟨.incompleteResult k, by simp [doFastPathLookupAux, hlook]⟩
  | some p =>
    obtain ⟨hmem, hle⟩ := mapFindFloor_spec _ _ _ hf
    have hcount : mapCountAbove st.tabletsByKey k < st.tabletsByKey.length := by
      unfold mapCountAbove
      exact List.length_filter_lt_length_iff_exists.mpr
        ⟨p, hmem, by simp [not_ltB_of_leB hle]⟩
    exact Option.isSome_iff_exists.mp
      (doFastPathLookupAux_fuel st now lookupType (st.tabletsByKey.length + 1) k
        (by omega))

/-! ## C1: trailing non-covered range on a short read -/

/-- C1: after the ingestion loop, if last_upper_bound is non-empty and the
response was a short read (fewer tablets than requested), the trailing
non-covered entry [last_upper, end) is inserted after erasing every entry at
or above last_upper; if the response was full (not below the maximum), no
trailing entry is inserted and the map is exactly the loop result, so
entries at or above last_upper that the loop left in place remain. -/
theorem c1_trailing_non_covered (st : MetaCacheState) (now : Nat)
    (partitionKey : Key) (isExactLookup : Bool) (resp : GetTableLocationsResponsePB)
    (maxReturnedLocations : Nat) (first : TabletLocationsPB)
    (rest : List TabletLocationsPB) (byId1 : List (String × RemoteTablet))
    (mLoop : TabletMap) (lastUpper : Key)
    (hne : resp.tabletLocations = first :: rest)
    (hloop : ingestTabletLocations resp.tsInfos (now + resp.ttlMillis) st.tabletsById
        (initialNcStep st.tabletsByKey (now + resp.ttlMillis) partitionKey
          first.partitionStart)
        first.partitionStart resp.tabletLocations = (.ok, byId1, mLoop, lastUpper)) :
    (lastUpper ≠ [] → resp.tabletLocations.length < maxReturnedLocations →
      ((processGetTableLocationsResponse st now partitionKey isExactLookup resp
          maxReturnedLocations).2.1.tabletsByKey =
        mapInsert (mapEraseFrom mLoop lastUpper) lastUpper
          (ncEntry (now + resp.ttlMillis) lastUpper []) ∧
       (lastUpper, ncEntry (now + resp.ttlMillis) lastUpper []) ∈
         (processGetTableLocationsResponse st now partitionKey isExactLookup resp
           maxReturnedLocations).2.1.tabletsByKey ∧
       ∀ p ∈ (processGetTableLocationsResponse st now partitionKey isExactLookup resp
           maxReturnedLocations).2.1.tabletsByKey,
         p ≠ (lastUpper, ncEntry (now + resp.ttlMillis) lastUpper []) →
         keyLtB p.1 lastUpper = true)) ∧
    (¬ resp.tabletLocations.length < maxReturnedLocations →
      (processGetTableLocationsResponse st now partitionKey isExactLookup resp
        maxReturnedLocations).2.1.tabletsByKey = mLoop) := by
  have hkey : (processGetTableLocationsResponse st now partitionKey isExactLookup resp
      maxReturnedLocations).2.1.tabletsByKey =
      trailingNcStep mLoop (now + resp.ttlMillis) lastUpper
        resp.tabletLocations.length maxReturnedLocations := by
    unfold processGetTableLocationsResponse
    rw [hne] at hloop
    rw [hne]
    simp only [hloop]
  constructor
  · intro hlu hcount
    have heq : (processGetTableLocationsResponse st now partitionKey isExactLookup resp
        maxReturnedLocations).2.1.tabletsByKey =
        mapInsert (mapEraseFrom mLoop lastUpper) lastUpper
          (ncEntry (now + resp.ttlMillis) lastUpper []) := by
      rw [hkey]
      unfold trailingNcStep
      rw [if_pos ⟨hlu, hcount⟩]
    refine ⟨heq, ?_, ?_⟩
    · rw [heq]
      exact List.mem_cons_self _ _
    · intro p hp hpne
      rw [heq] at hp
      rcases List.mem_cons.mp hp with hph | hpt
      · exact absurd hph hpne
      · exact (List.mem_filter.mp hpt).2
  · intro hcount
    rw [hkey]
    unfold trailingNcStep
    rw [if_neg (by intro hcond; exact hcount hcond.2)]

/-- Witness for C1: a one-tablet short read (1 < 10 requested) with a
bounded last tablet yields the trailing non-covered entry. -/
theorem c1_trailing_non_covered_witness :
    (([2] : Key), ncEntry (0 + 5) [2] []) ∈
      (processGetTableLocationsResponse
        { tsRegistry := [], tsCache := [], tabletsById := [],
          tabletsByKey := [], entryByTabletId := [] }
        0 [1] true
        { ttlMillis := 5,
          tabletLocations :=
            [{ tabletId := "A", partitionStart := [1], partitionEnd := [2],
               deprecatedReplicas := [],
               internedReplicas := [{ tsInfoIdx := 0, role := RaftRole.leader }] }],
          tsInfos := [{ permanentUuid := "s1" }] }
        10).2.1.tabletsByKey :=
  ((c1_trailing_non_covered
    { tsRegistry := [], tsCache := [], tabletsById := [],
      tabletsByKey := [], entryByTabletId := [] }
    0 [1] true
    { ttlMillis := 5,
      tabletLocations :=
        [{ tabletId := "A", partitionStart := [1], partitionEnd := [2],
           deprecatedReplicas := [],
           internedReplicas := [{ tsInfoIdx := 0, role := RaftRole.leader }] }],
      tsInfos := [{ permanentUuid := "s1" }] }
    10
    { tabletId := "A", partitionStart := [1], partitionEnd := [2],
      deprecatedReplicas := [],
      internedReplicas := [{ tsInfoIdx := 0, role := RaftRole.leader }] }
    []
    [("A",
      { tabletId := "A", partitionStart := [1], partitionEnd := [2],
        replicas := [{ ts := "s1", role := RaftRole.leader, failed := false }],
        stale := false })]
    [([1],
      coveredEntry (0 + 5)
        { tabletId := "A", partitionStart := [1], partitionEnd := [2],
          replicas := [{ ts := "s1", role := RaftRole.leader, failed := false }],
          stale := false })]
    [2] rfl (by decide)).1 (by decide) (by decide)).2.1

/-! ## C6: non-covered inference round-trip -/

theorem mem_nil_gapNcStep {m : TabletMap} {expiration : Nat} {lastUpper lower : Key}
    {e : MetaCacheEntry} (hlu : lastUpper ≠ [])
    (hmem : (([] : Key), e) ∈ m) :
    (([] : Key), e) ∈ gapNcStep m expiration lastUpper lower := by
  unfold gapNcStep
  by_cases hg : keyLtB lastUpper lower = true
  · rw [if_pos hg]
    apply List.mem_cons_of_mem
    refine List.mem_filter.mpr ⟨hmem, ?_⟩
    simp [keyLeB, keyLtB_nil_left hlu]
  · rw [if_neg hg]
    exact hmem

theorem mem_nil_knownTabletEntryStep {m : TabletMap} {expiration : Nat} {lower : Key}
    {r : RemoteTablet} {e : MetaCacheEntry} (hlow : lower ≠ [])
    (hmem : (([] : Key), e) ∈ m) :
    (([] : Key), e) ∈ knownTabletEntryStep m expiration lower r := by
  unfold knownTabletEntryStep
  have hne : (([] : Key) == lower) = false := by
    cases lower with
    | nil => exact absurd rfl hlow
    | cons a as => rfl
  cases hmf : mapFind m lower with
  | none => exact List.mem_cons_of_mem _ hmem
  | some e0 =>
    unfold mapSet
    refine List.mem_map.mpr ⟨(([] : Key), e), hmem, ?_⟩
    simp [hne]

theorem mem_nil_newTabletEraseStep {m : TabletMap} {lower upper : Key}
    {e : MetaCacheEntry} (hlow : lower ≠ [])
    (hmem : (([] : Key), e) ∈ m) :
    (([] : Key), e) ∈ newTabletEraseStep m lower upper := by
  unfold newTabletEraseStep
  have hle : keyLeB lower ([] : Key) = false := by
    simp [keyLeB, keyLtB_nil_left hlow]
  by_cases hu : upper = []
  · rw [if_pos hu]
    exact List.mem_filter.mpr ⟨hmem, by simp [keyLtB_nil_left hlow]⟩
  · rw [if_neg hu]
    exact List.mem_filter.mpr ⟨hmem, by simp [hle]⟩

theorem ingest_preserves_nil_key (tsInfos : List TSInfoPB) (expiration : Nat) :
    ∀ (locs : List TabletLocationsPB) (byId : List (String × RemoteTablet))
      (m : TabletMap) (lastUpper : Key) (e : MetaCacheEntry),
      lastUpper ≠ [] → boundsOk locs → (([] : Key), e) ∈ m →
      (([] : Key), e) ∈
        (ingestTabletLocations tsInfos expiration byId m lastUpper locs).2.2.1 := by
  intro locs
  induction locs with
  | nil =>
    intro byId m lastUpper e _ _ hmem
    simpa [ingestTabletLocations] using hmem
  | cons tablet rest ih =>
    intro byId m lastUpper e hlu hb hmem
    obtain ⟨hlow, hup, hbrest⟩ := hb
    have hmem1 : (([] : Key), e) ∈
        gapNcStep m expiration lastUpper tablet.partitionStart :=
      mem_nil_gapNcStep hlu hmem
    cases hfind : assocFind byId tablet.tabletId with
    | some remote =>
      rcases hrf : RemoteTablet.Refresh remote tablet tsInfos with ⟨s, remote'⟩
      cases s
      case ok =>
        have hmem2 : (([] : Key), e) ∈
            knownTabletEntryStep (gapNcStep m expiration lastUpper tablet.partitionStart)
              expiration tablet.partitionStart remote' :=
          mem_nil_knownTabletEntryStep hlow hmem1
        rcases hup with hrest | hupne
        · subst hrest
          simp only [ingestTabletLocations, hfind, hrf]
          simpa [ingestTabletLocations] using hmem2
        · have hrec := ih (assocSet byId tablet.tabletId remote')
            (knownTabletEntryStep (gapNcStep m expiration lastUpper tablet.partitionStart)
              expiration tablet.partitionStart remote')
            tablet.partitionEnd e hupne hbrest hmem2
          simpa [ingestTabletLocations, hfind, hrf] using hrec
      all_goals simpa [ingestTabletLocations, hfind, hrf] using hmem1
    | none =>
      have hmem2 : (([] : Key), e) ∈
          newTabletEraseStep (gapNcStep m expiration lastUpper tablet.partitionStart)
            tablet.partitionStart tablet.partitionEnd :=
        mem_nil_newTabletEraseStep hlow hmem1
      rcases hrf : RemoteTablet.Refresh
          { tabletId := tablet.tabletId, partitionStart := tablet.partitionStart,
            partitionEnd := tablet.partitionEnd, replicas := [], stale := false }
          tablet tsInfos with ⟨s, remote'⟩
      cases s
      case ok =>
        have hmem3 : (([] : Key), e) ∈
            mapInsert (newTabletEraseStep
                (gapNcStep m expiration lastUpper tablet.partitionStart)
                tablet.partitionStart tablet.partitionEnd)
              tablet.partitionStart (coveredEntry expiration remote') :=
          List.mem_cons_of_mem _ hmem2
        rcases hup with hrest | hupne
        · subst hrest
          simp only [ingestTabletLocations, hfind, hrf]
          simpa [ingestTabletLocations] using hmem3
        · have hrec := ih ((tablet.tabletId, remote') :: byId)
            (mapInsert (newTabletEraseStep
                (gapNcStep m expiration lastUpper tablet.partitionStart)
                tablet.partitionStart tablet.partitionEnd)
              tablet.partitionStart (coveredEntry expiration remote'))
            tablet.partitionEnd e hupne hbrest hmem3
          simpa [ingestTabletLocations, hfind, hrf] using hrec
      all_goals simpa [ingestTabletLocations, hfind, hrf] using hmem2

/-- C6: (a) when the first returned tablet's lower bound strictly exceeds the
lookup key, ingestion leaves the initial non-covered entry from the start of
the key space to that lower bound in the table's range map (for any
well-formed, ordered master response); (b) a point-mode LookupTabletByKey
whose key hits a cached fresh non-covered entry invokes the callback with
NotFound directly from the fast path, without constructing a LookupRpc. -/
theorem c6_non_covered_inference :
    (∀ (st : MetaCacheState) (now : Nat) (partitionKey : Key) (isExactLookup : Bool)
        (resp : GetTableLocationsResponsePB) (maxReturnedLocations : Nat)
        (first : TabletLocationsPB) (rest : List TabletLocationsPB),
      resp.tabletLocations = first :: rest →
      keyLtB partitionKey first.partitionStart = true →
      boundsOk resp.tabletLocations →
      (([] : Key), ncEntry (now + resp.ttlMillis) [] first.partitionStart) ∈
        (processGetTableLocationsResponse st now partitionKey isExactLookup resp
          maxReturnedLocations).2.1.tabletsByKey) ∧
    (∀ (st : MetaCacheState) (now : Nat) (k : Key) (e : MetaCacheEntry),
      lookupEntryByKeyFastPath st now k = some e →
      e.tablet = none →
      lookupTabletByKey st now k LookupType.point =
        .fastCallback (.notFound "No tablet covering the requested range partition")) := by
  constructor
  · intro st now partitionKey isExactLookup resp maxReturnedLocations first rest hne hlt hb
    have hflne : first.partitionStart ≠ [] := ne_nil_of_ltB hlt
    have hm0 : (([] : Key), ncEntry (now + resp.ttlMillis) [] first.partitionStart) ∈
        initialNcStep st.tabletsByKey (now + resp.ttlMillis) partitionKey
          first.partitionStart := by
      unfold initialNcStep
      rw [if_pos hlt]
      exact List.mem_cons_self _ _
    have hloopmem := ingest_preserves_nil_key resp.tsInfos (now + resp.ttlMillis)
      resp.tabletLocations st.tabletsById
      (initialNcStep st.tabletsByKey (now + resp.ttlMillis) partitionKey
        first.partitionStart)
      first.partitionStart (ncEntry (now + resp.ttlMillis) [] first.partitionStart)
      hflne hb hm0
    rcases hL : ingestTabletLocations resp.tsInfos (now + resp.ttlMillis) st.tabletsById
        (initialNcStep st.tabletsByKey (now + resp.ttlMillis) partitionKey
          first.partitionStart)
        first.partitionStart resp.tabletLocations with ⟨s, byId1, mm, lu⟩
    rw [hL] at hloopmem
    cases s
    case ok =>
      have hkey : (processGetTableLocationsResponse st now partitionKey isExactLookup resp
          maxReturnedLocations).2.1.tabletsByKey =
          trailingNcStep mm (now + resp.ttlMillis) lu
            resp.tabletLocations.length maxReturnedLocations := by
        unfold processGetTableLocationsResponse
        rw [hne] at hL
        rw [hne]
        simp only [hL]
      rw [hkey]
      unfold trailingNcStep
      by_cases hc : lu ≠ [] ∧ resp.tabletLocations.length < maxReturnedLocations
      · rw [if_pos hc]
        apply List.mem_cons_of_mem
        refine List.mem_filter.mpr ⟨hloopmem, ?_⟩
        simp [keyLtB_nil_left hc.1]
      · rw [if_neg hc]
        exact hloopmem
    all_goals
      have hkey : (processGetTableLocationsResponse st now partitionKey isExactLookup resp
          maxReturnedLocations).2.1.tabletsByKey = mm := by
        unfold processGetTableLocationsResponse
        rw [hne] at hL
        rw [hne]
        simp only [hL]
    all_goals rw [hkey]; exact hloopmem
  · intro st now k e he het
    have hfp : doFastPathLookup st now LookupType.point k =
        some (.notFoundResult "No tablet covering the requested range partition" k) := by
      unfold doFastPathLookup
      simp [doFastPathLookupAux, he, het]
    unfold lookupTabletByKey
    rw [hfp]

/-- Witness for C6: a point lookup into a cached fresh non-covered entry
fires the callback with NotFound from the fast path. -/
theorem c6_non_covered_inference_witness :
    lookupTabletByKey
      { tsRegistry := [], tsCache := [], tabletsById := [],
        tabletsByKey := [([1], ncEntry 10 [1] [3])], entryByTabletId := [] }
      5 [2] LookupType.point =
      .fastCallback (.notFound "No tablet covering the requested range partition") :=
  (c6_non_covered_inference).2
    { tsRegistry := [], tsCache := [], tabletsById := [],
      tabletsByKey := [([1], ncEntry 10 [1] [3])], entryByTabletId := [] }
    5 [2] (ncEntry 10 [1] [3]) (by decide) rfl
